import Mathlib

/-!
Verification of the hypercore-grpc-examples repository.

The file shallowly embeds the glue logic of the example scripts:
  * the zstd-magic-sniffing `decompress` helpers
    (javascript/grpcFilterExample/filter_example.js,
     javascript/grpcRawDataExample/index.js,
     golang/grpcFilterExample/filter_example.go),
  * the raw-data stream client `streamData`
    (javascript/grpcRawDataExample/index.js),
  * the L2 orderbook reconnect loops, both the Go port (an explicit
    while loop threading `retryCount`) and the JavaScript port (which
    reconnects by calling `streamL2Orderbook` again via `setTimeout`,
    starting a fresh invocation whose local `retryCount` is 0)
    (golang/orderbookStreamExample/orderbook_stream_example.go,
     javascript/orderbookStreamExample/orderbook_stream_example.js),
  * the S3 backfill helpers `parseBlockRange`, `findBlockFile` and
    `streamBlocks` (javascript/replicaCmdsOnS3Example/s3_blocks_backfill.js,
     golang/replicaCmdsOnS3Example/s3_blocks_backfill.go).

External collaborators (the zstd codec, UTF-8 decoding, JSON parsing and
the S3 listing) are taken as function parameters; everything the
repository itself computes is embedded executably.
-/

namespace HLGrpc

/-! ## Decompression (filter_example.js / index.js / filter_example.go) -/

/-- A JavaScript value reaching `decompress`: either a byte `Buffer` or some
non-buffer value (modelled opaquely by a tag). -/
inductive JSVal where
  | buf (bs : List Nat)
  | other (tag : Nat)
deriving DecidableEq

/-- Result of the JavaScript `decompress`: the untouched original value, a
text string, or a rejected promise (the zstd library threw). -/
inductive DecompressResult where
  | raw (v : JSVal)
  | text (s : String)
  | fail
deriving DecidableEq

/-- Zstd magic check, mirroring
`data[0] === 0x28 && data[1] === 0xB5 && data[2] === 0x2F && data[3] === 0xFD`. -/
def hasMagic : List Nat → Bool
  | b0 :: b1 :: b2 :: b3 :: _ => b0 == 0x28 && b1 == 0xB5 && b2 == 0x2F && b3 == 0xFD
  | _ => false

/-- JavaScript `decompress` from grpcRawDataExample/index.js (identical in
grpcFilterExample/filter_example.js).  `zdec` is the external
`zstd.decompress` (`none` = throws), `utf8` is `Buffer.toString` with
encoding utf8. -/
def decompress (zdec : List Nat → Option (List Nat)) (utf8 : List Nat → String) :
    JSVal → DecompressResult
  | JSVal.other t => DecompressResult.raw (JSVal.other t)
  | JSVal.buf bs =>
    if bs.length < 4 then DecompressResult.raw (JSVal.buf bs)
    else if hasMagic bs then
      match zdec bs with
      | some out => DecompressResult.text (utf8 out)
      | none => DecompressResult.fail
    else DecompressResult.text (utf8 bs)

/-- Go `decompress` from grpcFilterExample/filter_example.go (the
grpcRawDataExample Go variant is equivalent): `none` = returned error. -/
def goDecompress (zdec : List Nat → Option (List Nat)) (utf8 : List Nat → String)
    (bs : List Nat) : Option String :=
  if bs.length < 4 then some (utf8 bs)
  else if hasMagic bs then (zdec bs).map utf8
  else some (utf8 bs)

/-- A concrete byte-to-text decoder usable to instantiate the abstract
`utf8` parameter in witnesses. -/
def utf8ByteToStr (bs : List Nat) : String := String.mk (bs.map Char.ofNat)

/-! ## Raw-data stream client (javascript/grpcRawDataExample/index.js) -/

/-- The subscription message built by `streamData`: stream type, the
hardcoded `start_block: 0`, and the filter map. -/
structure SubIntent where
  streamType : String
  startBlock : Nat
  filters : List (String × List String)
deriving DecidableEq

/-- Events delivered to the call handlers of `streamData`. -/
inductive REvent where
  | dataUnit (blockNumber : Nat) (payload : JSVal)
  | pong (ts : Nat)
  | errEvt
  | endEvt
deriving DecidableEq

/-- Observable actions of `streamData`. -/
inductive ROut where
  | subIntent (i : SubIntent)
  | delivered (blockNumber : Nat) (r : DecompressResult)
  | pongLog (ts : Nat)
  | errorLog
  | streamEnded
deriving DecidableEq

/-- The `call.on` handlers of `streamData`: each data unit is decompressed
and printed; an error or end event terminates the stream. -/
def rawHandleEvents (zdec : List Nat → Option (List Nat)) (utf8 : List Nat → String) :
    List REvent → List ROut
  | [] => []
  | REvent.dataUnit n p :: rest =>
      ROut.delivered n (decompress zdec utf8 p) :: rawHandleEvents zdec utf8 rest
  | REvent.pong ts :: rest => ROut.pongLog ts :: rawHandleEvents zdec utf8 rest
  | REvent.errEvt :: _ => [ROut.errorLog]
  | REvent.endEvt :: _ => [ROut.streamEnded]

/-- `streamData` from index.js: writes one subscribe request with
`start_block: 0`, then handles the incoming events.  There is no
reconnect logic and no cursor tracking in the source. -/
def streamData (zdec : List Nat → Option (List Nat)) (utf8 : List Nat → String)
    (streamType : String) (filters : List (String × List String))
    (events : List REvent) : List ROut :=
  ROut.subIntent ⟨streamType, 0, filters⟩ :: rawHandleEvents zdec utf8 events

/-- Projection to delivered (decompressed) payloads. -/
def deliveredOf : ROut → Option (Nat × DecompressResult)
  | ROut.delivered n r => some (n, r)
  | _ => none

/-- Projection to subscribe intents. -/
def subOfR : ROut → Option SubIntent
  | ROut.subIntent i => some i
  | _ => none

/-- Recognizes the error log action. -/
def isErrLog : ROut → Bool
  | ROut.errorLog => true
  | _ => false

/-- Subscribe intents emitted strictly from the first error event on. -/
def subsAfterError (l : List ROut) : List SubIntent :=
  (l.dropWhile fun o => !isErrLog o).filterMap subOfR

/-! ## L2 orderbook reconnect loops (orderbook_stream_example.go / .js) -/

/-- `maxRetries` constant of both orderbook examples. -/
def maxRetries : Nat := 10

/-- `baseDelay` of both orderbook examples, in milliseconds (2 seconds). -/
def baseDelay : Nat := 2000

/-- `baseDelay * 2^(attempt-1)`, the delay computed before a reconnect. -/
def backoffDelay (attempt : Nat) : Nat := baseDelay * 2 ^ (attempt - 1)

/-- gRPC status codes distinguished by the examples. -/
inductive GCode where
  | dataLoss
  | unavailable
  | unauthenticated
  | permissionDenied
  | otherCode
deriving DecidableEq

/-- Events observed on one L2 stream connection. -/
inductive GEvent where
  | dataMsg
  | errMsg (c : GCode)
  | eofMsg
deriving DecidableEq

/-- The `L2BookRequest` built by both ports: a coin and a level count.
The proto request used by the source carries no start position field. -/
structure L2Request where
  coin : String
  nLevels : Nat
deriving DecidableEq

/-- Observable actions of the Go `streamL2Orderbook` loop.  `gapDetected`
is the notification vocabulary of the specification; the embedding keeps
the constructor so its absence from every run is a provable statement. -/
inductive GOut where
  | subscribe (r : L2Request)
  | resetCounter
  | deliver
  | wait (attempt : Nat) (delayMs : Nat)
  | giveUp
  | fatal (c : GCode)
  | gapDetected (lo hi : Nat)
deriving DecidableEq

/-- One connection of the Go loop: `counter` is `retryCount`, `msg` is
`msgCount`.  Returns the emitted actions and `some n` when the loop should
reconnect with `retryCount = n`, `none` when the whole function returns. -/
def goConnRun : Nat → Nat → List GEvent → List GOut × Option Nat
  | _, _, [] => ([], none)
  | _, _, GEvent.eofMsg :: _ => ([], none)
  | counter, msg, GEvent.dataMsg :: rest =>
    if msg = 0 then
      let p := goConnRun 0 (msg + 1) rest
      (GOut.resetCounter :: GOut.deliver :: p.1, p.2)
    else
      let p := goConnRun counter (msg + 1) rest
      (GOut.deliver :: p.1, p.2)
  | counter, _, GEvent.errMsg c :: _ =>
    if c = GCode.dataLoss then
      if counter + 1 < maxRetries then
        ([GOut.wait (counter + 1) (backoffDelay (counter + 1))], some (counter + 1))
      else ([GOut.giveUp], none)
    else ([GOut.fatal c], none)

/-- The Go `for retryCount < maxRetries` loop: each outer iteration sends
the (unchanged) request and runs one connection; `retryCount` is threaded
through reconnects. -/
def goL2Run (req : L2Request) : Nat → List (List GEvent) → List GOut
  | _, [] => []
  | counter, evs :: rest =>
    if maxRetries ≤ counter then []
    else
      let p := goConnRun counter 0 evs
      GOut.subscribe req :: p.1 ++
        (match p.2 with
         | some n => goL2Run req n rest
         | none => [])

/-- Observable actions of the JavaScript `streamL2Orderbook`. -/
inductive JOut where
  | jdeliver
  | jreset
  | reconnectAttempt (attempt : Nat) (delayMs : Nat)
  | jgiveUp
  | jfatal (c : GCode)
  | jgap (lo hi : Nat)
deriving DecidableEq

/-- One JavaScript invocation of `streamL2Orderbook` (one connection): the
error handler either schedules a reconnect (`true`) via `setTimeout` or
gives up / logs fatally (`false`). -/
def jsInvRun : Nat → Nat → List GEvent → List JOut × Bool
  | _, _, [] => ([], false)
  | _, _, GEvent.eofMsg :: _ => ([], false)
  | counter, msg, GEvent.dataMsg :: rest =>
    if msg = 0 then
      let p := jsInvRun 0 (msg + 1) rest
      (JOut.jreset :: JOut.jdeliver :: p.1, p.2)
    else
      let p := jsInvRun counter (msg + 1) rest
      (JOut.jdeliver :: p.1, p.2)
  | counter, _, GEvent.errMsg c :: _ =>
    if c = GCode.dataLoss then
      if counter + 1 < maxRetries then
        ([JOut.reconnectAttempt (counter + 1) (backoffDelay (counter + 1))], true)
      else ([JOut.jgiveUp], false)
    else ([JOut.jfatal c], false)

/-- A chain of JavaScript invocations: the scheduled reconnect calls
`streamL2Orderbook(coin, nLevels, autoReconnect)` again, so every
invocation starts with a fresh local `retryCount = 0`. -/
def jsL2Run : List (List GEvent) → List JOut
  | [] => []
  | evs :: rest =>
    let p := jsInvRun 0 0 evs
    p.1 ++ (if p.2 then jsL2Run rest else [])

/-- Delays (ms) of the reconnects scheduled by a JavaScript run. -/
def jsDelays (l : List JOut) : List Nat :=
  l.filterMap fun o =>
    match o with
    | JOut.reconnectAttempt _ d => some d
    | _ => none

/-- Delays (ms) of the backoff waits performed by a Go run. -/
def goWaits (l : List GOut) : List Nat :=
  l.filterMap fun o =>
    match o with
    | GOut.wait _ d => some d
    | _ => none

/-- Recognizes a gap notification in the Go vocabulary. -/
def isGapOut : GOut → Bool
  | GOut.gapDetected _ _ => true
  | _ => false

/-- Recognizes a gap notification in the JavaScript vocabulary. -/
def isJsGap : JOut → Bool
  | JOut.jgap _ _ => true
  | _ => false

/-- Projection to the requests sent by subscribe actions. -/
def subOf : GOut → Option L2Request
  | GOut.subscribe r => some r
  | _ => none

/-- Checks that once `giveUp` is emitted nothing follows it. -/
def terminalGiveUp : List GOut → Bool
  | [] => true
  | o :: rest => if o = GOut.giveUp then rest.isEmpty else terminalGiveUp rest

/-- The concrete request of the default CLI invocation (`--coin=BTC`,
20 levels). -/
def req0 : L2Request := ⟨"BTC", 20⟩

/-- A degraded-period trace: a connection that delivers one update and then
fails with DATA_LOSS, followed by a reconnected stream. -/
def gapTrace : List (List GEvent) :=
  [[GEvent.dataMsg, GEvent.errMsg GCode.dataLoss], [GEvent.dataMsg]]

/-! ## S3 backfill helpers (s3_blocks_backfill.js / s3_blocks_backfill.go) -/

/-- Splitting accumulator: collects the current segment (reversed) while
walking the character list. -/
def splitOnCharAux (sep : Char) : List Char → List Char → List String
  | acc, [] => [String.mk acc.reverse]
  | acc, c :: rest =>
    if c = sep then String.mk acc.reverse :: splitOnCharAux sep [] rest
    else splitOnCharAux sep (c :: acc) rest

/-- Kernel-computable single-character split with the semantics shared by
JavaScript `String.split` and Go `strings.Split` for one-character
separators (an empty input yields one empty segment, a trailing separator
yields a trailing empty segment). -/
def splitOnChar (sep : Char) (s : String) : List String :=
  splitOnCharAux sep [] s.data

/-- Kernel-computable equivalent of `line.trim() === ""` (JavaScript) and
`strings.TrimSpace(line) == ""` (Go): the line consists solely of
whitespace. -/
def isBlankLine (s : String) : Bool := s.data.all (·.isWhitespace)

/-- Numeric value of a decimal digit character. -/
def digitVal (c : Char) : Nat := c.toNat - '0'.toNat

/-- Value of a list of decimal digit characters. -/
def digitsToNat (ds : List Char) : Nat := ds.foldl (fun a c => a * 10 + digitVal c) 0

/-- Go `strconv.ParseInt(s, 10, 64)`: optional sign, at least one digit, no
other characters, value within the signed 64-bit range. -/
def goParseIntDec (s : String) : Option Int :=
  let p : Int × List Char :=
    match s.toList with
    | '+' :: t => (1, t)
    | '-' :: t => (-1, t)
    | cs => (1, cs)
  if p.2 ≠ [] ∧ p.2.all (·.isDigit) then
    let v : Int := p.1 * (digitsToNat p.2 : Int)
    if -(2 ^ 63) ≤ v ∧ v < 2 ^ 63 then some v else none
  else none

/-- JavaScript `parseInt(s, 10)`: skip leading whitespace, optional sign,
longest digit prefix; `none` models NaN (no digits). -/
def jsParseIntDec (s : String) : Option Int :=
  let cs := s.toList.dropWhile (·.isWhitespace)
  let p : Int × List Char :=
    match cs with
    | '+' :: t => (1, t)
    | '-' :: t => (-1, t)
    | _ => (1, cs)
  let ds := p.2.takeWhile (·.isDigit)
  if ds = [] then none else some (p.1 * (digitsToNat ds : Int))

/-- The Go `BlockRange` struct. -/
structure BlockRange where
  checkpoint : String
  date : String
  startBlock : Int
  endBlock : Int
  s3Key : String
deriving DecidableEq

/-- The object returned by the JavaScript `parseBlockRange`; its numeric
fields are `Option Int` because `parseInt` can yield NaN (`none`). -/
structure JsBlockRange where
  checkpoint : String
  date : String
  startNum : Option Int
  endNum : Option Int
  s3Key : String
deriving DecidableEq

/-- Builds the S3 key `replica_cmds/{checkpoint}/{date}/{file}` exactly as
`findBlockFile` does. -/
def mkKey (cp d f : String) : String :=
  "replica_cmds/" ++ cp ++ "/" ++ d ++ "/" ++ f

/-- Go `ParseBlockRange`: four slash segments, first segment
`replica_cmds`, last segment exactly two dash parts, both 64-bit decimal
integers. -/
def goParseBlockRange (key : String) : Option BlockRange :=
  match splitOnChar '/' key with
  | [p0, p1, p2, p3] =>
    if p0 = "replica_cmds" then
      match splitOnChar '-' p3 with
      | [a, b] =>
        match goParseIntDec a, goParseIntDec b with
        | some s, some e => some ⟨p1, p2, s, e, key⟩
        | _, _ => none
      | _ => none
    else none
  | _ => none

/-- JavaScript `parseBlockRange`: four slash segments, first segment
`replica_cmds`; destructuring `const [start, end] = parts[3].split("-")`
takes the first two dash components (extra components are ignored) and
only requires them to be non-empty strings; the numbers are then read with
`parseInt(_, 10)`. -/
def jsParseBlockRange (key : String) : Option JsBlockRange :=
  match splitOnChar '/' key with
  | [p0, p1, p2, p3] =>
    if p0 = "replica_cmds" then
      match (splitOnChar '-' p3)[0]?, (splitOnChar '-' p3)[1]? with
      | some a, some b =>
        if a ≠ "" ∧ b ≠ "" then
          some ⟨p1, p2, jsParseIntDec a, jsParseIntDec b, key⟩
        else none
      | _, _ => none
    else none
  | _ => none

/-- The scan of one checkpoint performed by the Go `findBlockFile` loop:
for each date and file under `cp`, parse the rebuilt key and return the
first range containing `t`. -/
def goSearchCheckpoint (datesOf : String → List String)
    (filesOf : String → String → List String) (cp : String) (t : Int) :
    Option BlockRange :=
  (datesOf cp).findSome? fun d =>
    (filesOf cp d).findSome? fun f =>
      match goParseBlockRange (mkKey cp d f) with
      | some br => if br.startBlock ≤ t ∧ t ≤ br.endBlock then some br else none
      | none => none

/-- Go `findBlockFile`.  `cps` is the (sorted) checkpoint listing returned
by `listS3`, `datesOf`/`filesOf` are the date and file listings under a
checkpoint; the source takes the last checkpoint of the sorted listing and
scans only that checkpoint. -/
def goFindBlockFile (cps : List String) (datesOf : String → List String)
    (filesOf : String → String → List String) (t : Int) : Option BlockRange :=
  match cps.getLast? with
  | none => none
  | some cp => goSearchCheckpoint datesOf filesOf cp t

/-- The scan of one checkpoint performed by the JavaScript `findBlockFile`
loop, with the JavaScript parser and a range test
`br.startBlock <= target && target <= br.endBlock` that is false when
either bound is NaN. -/
def jsSearchCheckpoint (datesOf : String → List String)
    (filesOf : String → String → List String) (cp : String) (t : Int) :
    Option JsBlockRange :=
  (datesOf cp).findSome? fun d =>
    (filesOf cp d).findSome? fun f =>
      match jsParseBlockRange (mkKey cp d f) with
      | some br =>
        match br.startNum, br.endNum with
        | some s, some e => if s ≤ t ∧ t ≤ e then some br else none
        | _, _ => none
      | none => none

/-- JavaScript `findBlockFile`: take the last checkpoint of the sorted
listing and scan only that checkpoint. -/
def jsFindBlockFile (cps : List String) (datesOf : String → List String)
    (filesOf : String → String → List String) (t : Int) : Option JsBlockRange :=
  match cps.getLast? with
  | none => none
  | some cp => jsSearchCheckpoint datesOf filesOf cp t

/-- A well-formed range segment `{start}-{end}`: exactly two dash parts,
each a decimal integer. -/
def wellFormedRangeSeg (s : String) : Bool :=
  match splitOnChar '-' s with
  | [a, b] => (goParseIntDec a).isSome && (goParseIntDec b).isSome
  | _ => false

/-- A well-formed backfill key `replica_cmds/{checkpoint}/{date}/{start}-{end}`. -/
def wellFormedKey (key : String) : Bool :=
  match splitOnChar '/' key with
  | [p0, _, _, p3] => p0 == "replica_cmds" && wellFormedRangeSeg p3
  | _ => false

/-- Lexicographic comparison of character lists. -/
def charListLe : List Char → List Char → Bool
  | [], _ => true
  | _ :: _, [] => false
  | a :: as, b :: bs => if a < b then true else if b < a then false else charListLe as bs

/-- Computable lexicographic string order: the order in which JavaScript
`Array.sort()` and Go `sort.Strings` arrange the ASCII checkpoint and date
names produced by the S3 listing. -/
def strLe (a b : String) : Bool := charListLe a.data b.data

/-- Concrete single-checkpoint listing used in the C9 counterexample. -/
def cps9 : List String := ["1704067200"]

/-- Concrete date listing used in the C9 counterexample. -/
def dates9 : String → List String := fun _ => ["20240101"]

/-- Concrete file listing used in the C9 counterexample; the file name has
three dash components. -/
def files9 : String → String → List String := fun _ _ => ["5-9-extra"]

/-- `streamBlocks` (both ports), carrying the running `lineNumber`: blank
lines are skipped without consuming a line number; lines that fail to
parse consume a line number but yield nothing; parsed lines are yielded
with block number `startBlock + lineNumber`.  `parse` abstracts the JSON
parser. -/
def streamBlocksAux {α : Type} (parse : String → Option α) (startBlock : Int) :
    Nat → List String → List (Int × α)
  | _, [] => []
  | ln, l :: rest =>
    if isBlankLine l then streamBlocksAux parse startBlock ln rest
    else
      match parse l with
      | some v => (startBlock + (ln : Int), v) :: streamBlocksAux parse startBlock (ln + 1) rest
      | none => streamBlocksAux parse startBlock (ln + 1) rest

/-- `streamBlocks` on a whole file (list of lines), starting at line 0. -/
def streamBlocks {α : Type} (parse : String → Option α) (startBlock : Int)
    (lines : List String) : List (Int × α) :=
  streamBlocksAux parse startBlock 0 lines

/-- Concrete parser used in the C8 witness: every line except `bad` parses
to itself. -/
def parseW : String → Option String := fun s => if s = "bad" then none else some s

/-- A concrete zstd decoder used in witnesses: it knows exactly one
compressed payload (the magic followed by byte 1) and decodes it to the
bytes of `Hi`; everything else fails. -/
def zdec1 : List Nat → Option (List Nat) :=
  fun bs => if bs = [0x28, 0xB5, 0x2F, 0xFD, 1] then some [72, 105] else none

/-- A zstd decoder that always fails, used in counterexamples where the
decoder is irrelevant. -/
def zdecNone : List Nat → Option (List Nat) := fun _ => none

/-! ## Theorems -/

/-- C1: every data payload is sniffed for the 4-byte zstd magic
`28 B5 2F FD`; with the magic present the payload is zstd-decompressed and
the result is the decoded text (here: assuming the external decoder
returns `out`, the result is exactly `utf8 out`, i.e. the text that was
compressed); without it the bytes pass through unchanged and are read as
text (in Go always, in JavaScript for buffers of length at least 4); and
the `streamData` data handler applies this to every `DataUnit`
independently of the subscribed stream type. -/
theorem C1_decompress_every_unit :
    ∀ (zdec : List Nat → Option (List Nat)) (utf8 : List Nat → String),
      (∀ bs out, 4 ≤ bs.length → hasMagic bs = true → zdec bs = some out →
        decompress zdec utf8 (JSVal.buf bs) = DecompressResult.text (utf8 out) ∧
        goDecompress zdec utf8 bs = some (utf8 out)) ∧
      (∀ bs, hasMagic bs = false →
        decompress zdec utf8 (JSVal.buf bs) =
          (if bs.length < 4 then DecompressResult.raw (JSVal.buf bs)
           else DecompressResult.text (utf8 bs)) ∧
        goDecompress zdec utf8 bs = some (utf8 bs)) ∧
      (∀ st st2 fl evs,
        (streamData zdec utf8 st fl evs).filterMap deliveredOf =
          (streamData zdec utf8 st2 fl evs).filterMap deliveredOf) := by
  intro zdec utf8
  refine ⟨?_, ?_, ?_⟩
  · intro bs out hlen hm hz
    constructor
    · simp [decompress, hm, hz, show ¬bs.length < 4 by omega]
    · simp [goDecompress, hm, hz, show ¬bs.length < 4 by omega]
  · intro bs hm
    constructor
    · by_cases h : bs.length < 4 <;> simp [decompress, hm, h]
    · by_cases h : bs.length < 4 <;> simp [goDecompress, hm, h]
  · intro st st2 fl evs
    rfl

/-- Witness for C1 at concrete inputs: the magic-prefixed payload known to
`zdec1` decompresses to the text `Hi`, and a non-prefixed 4-byte payload
is read directly as text. -/
theorem C1_decompress_every_unit_witness :
    decompress zdec1 utf8ByteToStr (JSVal.buf [0x28, 0xB5, 0x2F, 0xFD, 1]) =
      DecompressResult.text "Hi" ∧
    decompress zdec1 utf8ByteToStr (JSVal.buf [65, 66, 67, 68]) =
      DecompressResult.text "ABCD" := by
  have h := C1_decompress_every_unit zdec1 utf8ByteToStr
  constructor
  · exact ((h.1 [0x28, 0xB5, 0x2F, 0xFD, 1] [72, 105] (by decide) (by decide)
      (by decide)).1).trans (by decide)
  · exact ((h.2.1 [65, 66, 67, 68] (by decide)).1).trans (by decide)

/-- C10: `decompress` is total on every input without the zstd magic: a
non-buffer value or a buffer shorter than 4 bytes is returned as the
original value (JavaScript) or as text (Go), a longer non-prefixed buffer
becomes UTF-8 text, and a failure can only occur when the magic prefix is
present and the external zstd decoder rejects the remaining bytes. -/
theorem C10_decompress_total_on_nonmagic :
    ∀ (zdec : List Nat → Option (List Nat)) (utf8 : List Nat → String),
      (∀ t, decompress zdec utf8 (JSVal.other t) = DecompressResult.raw (JSVal.other t)) ∧
      (∀ bs, bs.length < 4 →
        decompress zdec utf8 (JSVal.buf bs) = DecompressResult.raw (JSVal.buf bs) ∧
        goDecompress zdec utf8 bs = some (utf8 bs)) ∧
      (∀ bs, hasMagic bs = false → 4 ≤ bs.length →
        decompress zdec utf8 (JSVal.buf bs) = DecompressResult.text (utf8 bs)) ∧
      (∀ v, decompress zdec utf8 v = DecompressResult.fail →
        ∃ bs, v = JSVal.buf bs ∧ 4 ≤ bs.length ∧ hasMagic bs = true ∧ zdec bs = none) ∧
      (∀ bs, goDecompress zdec utf8 bs = none →
        4 ≤ bs.length ∧ hasMagic bs = true ∧ zdec bs = none) := by
  intro zdec utf8
  refine ⟨fun t => rfl, ?_, ?_, ?_, ?_⟩
  · intro bs h
    exact ⟨by simp [decompress, h], by simp [goDecompress, h]⟩
  · intro bs hm hlen
    simp [decompress, hm, show ¬bs.length < 4 by omega]
  · intro v h
    cases v with
    | other t => simp [decompress] at h
    | buf bs =>
      refine ⟨bs, rfl, ?_⟩
      by_cases h4 : bs.length < 4
      · simp [decompress, h4] at h
      · by_cases hm : hasMagic bs
        · cases hz : zdec bs with
          | some out => simp [decompress, h4, hm, hz] at h
          | none => exact ⟨by omega, hm, rfl⟩
        · simp [decompress, h4, hm] at h
  · intro bs h
    by_cases h4 : bs.length < 4
    · simp [goDecompress, h4] at h
    · by_cases hm : hasMagic bs
      · cases hz : zdec bs with
        | some out => simp [goDecompress, h4, hm, hz] at h
        | none => exact ⟨by omega, hm, rfl⟩
      · simp [goDecompress, h4, hm] at h

/-- Witness for C10 at concrete inputs: a 3-byte buffer passes through
untouched, a non-prefixed 4-byte buffer becomes text, and the one input on
which the model fails indeed carries the magic prefix. -/
theorem C10_decompress_total_on_nonmagic_witness :
    decompress zdec1 utf8ByteToStr (JSVal.buf [1, 2, 3]) =
      DecompressResult.raw (JSVal.buf [1, 2, 3]) ∧
    decompress zdec1 utf8ByteToStr (JSVal.buf [65, 66, 67, 68]) =
      DecompressResult.text "ABCD" ∧
    (∃ bs, JSVal.buf [0x28, 0xB5, 0x2F, 0xFD, 9] = JSVal.buf bs ∧
      4 ≤ bs.length ∧ hasMagic bs = true ∧ zdec1 bs = none) := by
  have h := C10_decompress_total_on_nonmagic zdec1 utf8ByteToStr
  exact ⟨(h.2.1 [1, 2, 3] (by decide)).1,
    (h.2.2.1 [65, 66, 67, 68] (by decide) (by decide)).trans (by decide),
    h.2.2.2.1 (JSVal.buf [0x28, 0xB5, 0x2F, 0xFD, 9]) (by decide)⟩

/-- C2 (code bug, JavaScript orderbook example): in a degraded period of
two connections that each fail immediately with DATA_LOSS and no
`DataUnit` in between, the JavaScript reconnect (a fresh recursive
`streamL2Orderbook` invocation whose local `retryCount` restarts at 0)
reports attempt 1 at both failures — the counter is reset by mere
reconnection, with no `DataUnit` processed — whereas the Go port, which
threads `retryCount` through its retry loop, reports attempts 1 and 2 as
the claim requires. -/
theorem C2_js_counter_resets_without_progress :
    jsL2Run [[GEvent.errMsg GCode.dataLoss], [GEvent.errMsg GCode.dataLoss]] =
      [JOut.reconnectAttempt 1 2000, JOut.reconnectAttempt 1 2000] ∧
    goL2Run req0 0 [[GEvent.errMsg GCode.dataLoss], [GEvent.errMsg GCode.dataLoss]] =
      [GOut.subscribe req0, GOut.wait 1 2000, GOut.subscribe req0, GOut.wait 2 4000] :=
  ⟨rfl, rfl⟩

/-- C3 (code bug, JavaScript orderbook example): over five consecutive
immediately-failing connections the JavaScript port waits 2s before every
attempt (its `retryCount` is always 1 when the delay
`baseDelay * 2^(retryCount-1)` is computed, because each reconnect starts
a fresh invocation), while the Go port produces the claimed exponential
sequence 2s, 4s, 8s, 16s, 32s. -/
theorem C3_backoff_delay_sequence :
    jsDelays (jsL2Run (List.replicate 5 [GEvent.errMsg GCode.dataLoss])) =
      [2000, 2000, 2000, 2000, 2000] ∧
    goWaits (goL2Run req0 0 (List.replicate 5 [GEvent.errMsg GCode.dataLoss])) =
      [2000, 4000, 8000, 16000, 32000] :=
  ⟨rfl, rfl⟩

/-- Structural facts about one Go connection: a `giveUp` can only be the
final action, a connection that asks to retry never emitted `giveUp`, and
no connection ever emits a gap notification or a subscribe action (those
come only from the outer loop). -/
theorem goConnRun_spec (evs : List GEvent) : ∀ c m,
    terminalGiveUp (goConnRun c m evs).1 = true ∧
    (∀ n, (goConnRun c m evs).2 = some n → GOut.giveUp ∉ (goConnRun c m evs).1) ∧
    (∀ o ∈ (goConnRun c m evs).1, isGapOut o = false ∧ subOf o = none) := by
  induction evs with
  | nil => intro c m; simp [goConnRun, terminalGiveUp]
  | cons e rest ih =>
    intro c m
    cases e with
    | eofMsg => simp [goConnRun, terminalGiveUp]
    | dataMsg =>
      by_cases hm : m = 0
      · subst hm
        have h := ih 0 1
        refine ⟨?_, ?_, ?_⟩
        · simpa [goConnRun, terminalGiveUp] using h.1
        · intro n hn
          simp only [goConnRun, if_pos rfl] at hn ⊢
          have := h.2.1 n hn
          simp [this]
        · intro o ho
          simp [goConnRun] at ho
          rcases ho with rfl | rfl | h1
          · simp [isGapOut, subOf]
          · simp [isGapOut, subOf]
          · exact h.2.2 o h1
      · have h := ih c (m + 1)
        refine ⟨?_, ?_, ?_⟩
        · simpa [goConnRun, hm, terminalGiveUp] using h.1
        · intro n hn
          simp only [goConnRun, hm, if_neg, if_false] at hn ⊢
          have := h.2.1 n hn
          simp [this]
        · intro o ho
          simp [goConnRun, hm] at ho
          rcases ho with rfl | h1
          · simp [isGapOut, subOf]
          · exact h.2.2 o h1
    | errMsg c2 =>
      by_cases hc : c2 = GCode.dataLoss
      · subst hc
        by_cases hlt : c + 1 < maxRetries
        · refine ⟨?_, ?_, ?_⟩
          · simp [goConnRun, hlt, terminalGiveUp]
          · intro n _
            simp [goConnRun, hlt]
          · intro o ho
            simp [goConnRun, hlt] at ho
            subst ho; simp [isGapOut, subOf]
        · refine ⟨?_, ?_, ?_⟩
          · simp [goConnRun, hlt, terminalGiveUp]
          · intro n hn
            simp [goConnRun, hlt] at hn
          · intro o ho
            simp [goConnRun, hlt] at ho
            subst ho; simp [isGapOut, subOf]
      · refine ⟨?_, ?_, ?_⟩
        · simp [goConnRun, hc, terminalGiveUp]
        · intro n hn
          simp [goConnRun, hc] at hn
        · intro o ho
          simp [goConnRun, hc] at ho
          subst ho; simp [isGapOut, subOf]

/-- A non-give-up head does not affect the terminal-give-up check. -/
theorem terminalGiveUp_cons {o : GOut} (l : List GOut) (h : o ≠ GOut.giveUp) :
    terminalGiveUp (o :: l) = terminalGiveUp l := by
  simp [terminalGiveUp, h]

/-- Appending after a `giveUp`-free list preserves the terminal-give-up
check. -/
theorem terminalGiveUp_append {a : List GOut} (b : List GOut) (h : GOut.giveUp ∉ a) :
    terminalGiveUp (a ++ b) = terminalGiveUp b := by
  induction a with
  | nil => rfl
  | cons x a ih =>
    have hx : x ≠ GOut.giveUp := fun hh => h (hh ▸ List.mem_cons_self x a)
    have ha : GOut.giveUp ∉ a := fun hh => h (List.mem_cons_of_mem x hh)
    rw [List.cons_append, terminalGiveUp_cons _ hx, ih ha]

/-- In every Go run, `giveUp` (the retries-exhausted state) is final:
nothing is emitted after it. -/
theorem goL2Run_terminal (req : L2Request) :
    ∀ conns counter, terminalGiveUp (goL2Run req counter conns) = true := by
  intro conns
  induction conns with
  | nil => intro counter; rfl
  | cons evs rest ih =>
    intro counter
    by_cases h : maxRetries ≤ counter
    · simp [goL2Run, h, terminalGiveUp]
    · have hs := goConnRun_spec evs counter 0
      have hrw : goL2Run req counter (evs :: rest) =
          GOut.subscribe req :: ((goConnRun counter 0 evs).1 ++
            (match (goConnRun counter 0 evs).2 with
             | some n => goL2Run req n rest
             | none => [])) := by
        simp [goL2Run, h]
      rw [hrw, terminalGiveUp_cons _ (by simp)]
      cases hp : (goConnRun counter 0 evs).2 with
      | some n =>
        show terminalGiveUp ((goConnRun counter 0 evs).1 ++ goL2Run req n rest) = true
        rw [terminalGiveUp_append _ (hs.2.1 n hp)]
        exact ih n
      | none =>
        show terminalGiveUp ((goConnRun counter 0 evs).1 ++ []) = true
        rw [List.append_nil]
        exact hs.1

/-- C4: once the retry counter has reached (in particular, exceeded)
`maxRetries`, the Go loop guard `retryCount < maxRetries` fails, so the
session performs no further connection, subscribe request, wait or any
other action; and in every run the give-up transition (the
retries-exhausted terminal state) is final — no subscribe intent or
reconnect ever follows it.  The code gives up already at
`retryCount = maxRetries`, which implies the claimed guarantee for
`retryCount > maxRetries`. -/
theorem C4_retries_exhausted_terminal :
    (∀ req counter conns, maxRetries ≤ counter → goL2Run req counter conns = []) ∧
    (∀ req counter conns, terminalGiveUp (goL2Run req counter conns) = true) := by
  constructor
  · intro req counter conns h
    cases conns with
    | nil => rfl
    | cons evs rest => simp [goL2Run, h]
  · intro req counter conns
    exact goL2Run_terminal req conns counter

/-- Witness for C4: with the counter at 11 (exceeding `maxRetries = 10`)
no action at all is emitted, and a concrete run that exhausts nothing
still passes the terminal-give-up check. -/
theorem C4_retries_exhausted_terminal_witness :
    goL2Run req0 11 [[GEvent.errMsg GCode.dataLoss]] = [] ∧
    terminalGiveUp (goL2Run req0 0 [[GEvent.errMsg GCode.dataLoss]]) = true :=
  ⟨C4_retries_exhausted_terminal.1 req0 11 [[GEvent.errMsg GCode.dataLoss]] (by decide),
   C4_retries_exhausted_terminal.2 req0 0 [[GEvent.errMsg GCode.dataLoss]]⟩

/-- Prop-level facts about every Go run: no gap notification is ever
emitted, and every subscribe action carries exactly the original request. -/
theorem goL2Run_gap_sub (req : L2Request) : ∀ conns counter,
    (∀ o ∈ goL2Run req counter conns, isGapOut o = false) ∧
    (∀ o ∈ goL2Run req counter conns, ∀ r, subOf o = some r → r = req) := by
  intro conns
  induction conns with
  | nil => intro counter; exact ⟨by simp [goL2Run], by simp [goL2Run]⟩
  | cons evs rest ih =>
    intro counter
    by_cases h : maxRetries ≤ counter
    · constructor <;> intro o ho <;> simp [goL2Run, h] at ho
    · have hs := goConnRun_spec evs counter 0
      have hrw : goL2Run req counter (evs :: rest) =
          GOut.subscribe req :: ((goConnRun counter 0 evs).1 ++
            (match (goConnRun counter 0 evs).2 with
             | some n => goL2Run req n rest
             | none => [])) := by
        simp [goL2Run, h]
      constructor
      · intro o ho
        rw [hrw] at ho
        cases hp : (goConnRun counter 0 evs).2 with
        | some n =>
          rw [hp] at ho
          simp only [List.mem_cons, List.mem_append] at ho
          rcases ho with rfl | ho | ho
          · simp [isGapOut]
          · exact (hs.2.2 o ho).1
          · exact (ih n).1 o ho
        | none =>
          rw [hp] at ho
          simp only [List.mem_cons, List.mem_append] at ho
          rcases ho with rfl | ho | ho
          · simp [isGapOut]
          · exact (hs.2.2 o ho).1
          · exact absurd ho (List.not_mem_nil o)
      · intro o ho
        rw [hrw] at ho
        cases hp : (goConnRun counter 0 evs).2 with
        | some n =>
          rw [hp] at ho
          simp only [List.mem_cons, List.mem_append] at ho
          rcases ho with rfl | ho | ho
          · intro r hr; simpa [subOf] using hr.symm
          · intro r hr; rw [(hs.2.2 o ho).2] at hr; exact absurd hr (by simp)
          · exact (ih n).2 o ho
        | none =>
          rw [hp] at ho
          simp only [List.mem_cons, List.mem_append] at ho
          rcases ho with rfl | ho | ho
          · intro r hr; simpa [subOf] using hr.symm
          · intro r hr; rw [(hs.2.2 o ho).2] at hr; exact absurd hr (by simp)
          · exact absurd ho (List.not_mem_nil o)

/-- C6 counterexample: on the concrete degraded trace (a connection that
delivers an update, then fails with DATA_LOSS, then a reconnected stream)
the Go run emits exactly a backoff wait followed by a resubscription with
the unchanged request — no `gapDetected` notification ever appears and the
resume request carries no start position (the `L2Request` type has none);
the JavaScript run likewise emits no gap notification.  This falsifies the
claim that a `GapDetected{from, to}` event is emitted before resuming. -/
theorem C6_gap_counterexample :
    goL2Run req0 0 gapTrace =
      [GOut.subscribe req0, GOut.resetCounter, GOut.deliver, GOut.wait 1 2000,
       GOut.subscribe req0, GOut.resetCounter, GOut.deliver] ∧
    ((goL2Run req0 0 gapTrace).all fun o => !isGapOut o) = true ∧
    ((jsL2Run gapTrace).all fun o => !isJsGap o) = true :=
  ⟨rfl, by decide, by decide⟩

/-- C6 amended: on DATA_LOSS the examples silently reconnect: in every Go
run no gap notification is ever emitted and every (re)subscription carries
exactly the original request, which has no start position field; the
upstream minimum available position is never consulted. -/
theorem C6_amended_silent_reconnect :
    ∀ req counter conns,
      ((goL2Run req counter conns).all fun o => !isGapOut o) = true ∧
      (((goL2Run req counter conns).filterMap subOf).all fun r => decide (r = req)) = true := by
  intro req counter conns
  have h := goL2Run_gap_sub req conns counter
  constructor
  · rw [List.all_eq_true]
    intro o ho
    simp [h.1 o ho]
  · rw [List.all_eq_true]
    intro r hr
    rw [List.mem_filterMap] at hr
    obtain ⟨o, ho, hsub⟩ := hr
    simp [h.2 o ho r hsub]

/-- C7 counterexample: a transient transport failure — a stream error with
code UNAVAILABLE, not an authentication fault — does not enter the backoff
loop: both ports terminate the session immediately with a fatal error and
emit no wait and no further subscription.  This falsifies the claim that
non-authentication transport failures are treated as recoverable. -/
theorem C7_transport_failure_counterexample :
    goL2Run req0 0 [[GEvent.errMsg GCode.unavailable]] =
      [GOut.subscribe req0, GOut.fatal GCode.unavailable] ∧
    jsL2Run [[GEvent.errMsg GCode.unavailable]] = [JOut.jfatal GCode.unavailable] :=
  ⟨rfl, rfl⟩

/-- C7 amended: only a DATA_LOSS error is recoverable: any stream error
with a different code — transport and authentication faults alike — makes
both ports emit a fatal action and stop, while DATA_LOSS (with retries
remaining) emits exactly one backoff wait and schedules a reconnect; no
locally synthesized liveness timeout exists in the sources. -/
theorem C7_amended_only_dataloss_recoverable :
    ∀ (c : GCode) (counter msg : Nat) (rest : List GEvent),
      (c ≠ GCode.dataLoss →
        goConnRun counter msg (GEvent.errMsg c :: rest) = ([GOut.fatal c], none) ∧
        jsInvRun counter msg (GEvent.errMsg c :: rest) = ([JOut.jfatal c], false)) ∧
      (counter + 1 < maxRetries →
        goConnRun counter msg (GEvent.errMsg GCode.dataLoss :: rest) =
          ([GOut.wait (counter + 1) (backoffDelay (counter + 1))], some (counter + 1)) ∧
        jsInvRun counter msg (GEvent.errMsg GCode.dataLoss :: rest) =
          ([JOut.reconnectAttempt (counter + 1) (backoffDelay (counter + 1))], true)) := by
  intro c counter msg rest
  constructor
  · intro hc
    constructor <;> simp [goConnRun, jsInvRun, hc]
  · intro hlt
    constructor <;> simp [goConnRun, jsInvRun, hlt]

/-- Witness for C7 amended, at concrete inputs: an UNAVAILABLE error is
fatal, a DATA_LOSS error at counter 0 waits and retries. -/
theorem C7_amended_only_dataloss_recoverable_witness :
    goConnRun 0 0 [GEvent.errMsg GCode.unavailable] =
      ([GOut.fatal GCode.unavailable], none) ∧
    goConnRun 0 0 [GEvent.errMsg GCode.dataLoss] =
      ([GOut.wait 1 (backoffDelay 1)], some 1) :=
  ⟨((C7_amended_only_dataloss_recoverable GCode.unavailable 0 0 []).1 (by decide)).1,
   ((C7_amended_only_dataloss_recoverable GCode.dataLoss 0 0 []).2 (by decide)).1⟩

/-- C5 counterexample: on the concrete trace where a data unit for block 7
arrives and then a recoverable stream error occurs, the raw-data client
emits no subscribe intent after the error at all — it never resumes — and
the only subscribe intent of the whole session is the initial one with the
hardcoded start position 0 (not `lastConfirmedCursor + 1 = 8`; no cursor
is tracked anywhere).  This falsifies the claim that a subscribe intent
with start position `lastConfirmedCursor + 1` follows a recoverable error. -/
theorem C5_no_resume_counterexample :
    subsAfterError (streamData zdecNone utf8ByteToStr "TRADES" []
      [REvent.dataUnit 7 (JSVal.buf [49]), REvent.errEvt]) = [] ∧
    (streamData zdecNone utf8ByteToStr "TRADES" []
      [REvent.dataUnit 7 (JSVal.buf [49]), REvent.errEvt]).filterMap subOfR =
      [⟨"TRADES", 0, []⟩] :=
  ⟨rfl, rfl⟩

/-- C5 amended: every session of the raw-data client sends exactly one
subscribe intent, at session start, carrying the hardcoded start position
0; after an error event no further subscribe intent is ever emitted (the
cited examples have no resume logic and track no cursor). -/
theorem C5_amended_single_subscribe :
    ∀ (zdec : List Nat → Option (List Nat)) (utf8 : List Nat → String)
      (st : String) (fl : List (String × List String)) (evs : List REvent),
      (streamData zdec utf8 st fl evs).filterMap subOfR = [⟨st, 0, fl⟩] ∧
      subsAfterError (streamData zdec utf8 st fl evs) = [] := by
  intro zdec utf8 st fl evs
  have hnil : ∀ l : List REvent, (rawHandleEvents zdec utf8 l).filterMap subOfR = [] := by
    intro l
    induction l with
    | nil => rfl
    | cons e rest ih => cases e <;> simp [rawHandleEvents, subOfR, ih]
  constructor
  · simp [streamData, List.filterMap_cons, subOfR, hnil]
  · show ((rawHandleEvents zdec utf8 evs).dropWhile (fun o => !isErrLog o)).filterMap
      subOfR = []
    have hsub : List.Sublist
        ((rawHandleEvents zdec utf8 evs).dropWhile (fun o => !isErrLog o))
        (rawHandleEvents zdec utf8 evs) := List.dropWhile_sublist _
    have h2 := List.Sublist.filterMap subOfR hsub
    rw [hnil evs] at h2
    exact List.sublist_nil.mp h2

/-- Helper for C8: `streamBlocksAux` on a file without blank lines is the
filter-map of the parser over the lines enumerated from the starting line
number. -/
theorem streamBlocksAux_eq {α : Type} (parse : String → Option α) (startBlock : Int) :
    ∀ (lines : List String) (ln : Nat), (∀ l ∈ lines, isBlankLine l = false) →
      streamBlocksAux parse startBlock ln lines =
        (List.enumFrom ln lines).filterMap
          (fun p => (parse p.2).map fun v => (startBlock + (p.1 : Int), v)) := by
  intro lines
  induction lines with
  | nil => intro ln _; rfl
  | cons l rest ih =>
    intro ln h
    have hl : isBlankLine l = false := h l (List.mem_cons_self l rest)
    have hrest : ∀ x ∈ rest, isBlankLine x = false :=
      fun x hx => h x (List.mem_cons_of_mem l hx)
    cases hp : parse l with
    | some v =>
      simp [streamBlocksAux, hl, hp, List.enumFrom, List.filterMap_cons, ih (ln + 1) hrest]
    | none =>
      simp [streamBlocksAux, hl, hp, List.enumFrom, List.filterMap_cons, ih (ln + 1) hrest]

/-- C8: when every line of the backfill file is non-blank (the documented
JSON-Lines format: one record per line), `streamBlocks` yields, for each
line at zero-based index `k` that the JSON parser accepts, exactly the
record with block number `rangeStart + k`; lines the parser rejects are
skipped but still consume their index. -/
theorem C8_stream_blocks_numbering :
    ∀ {α : Type} (parse : String → Option α) (startBlock : Int) (lines : List String),
      (∀ l ∈ lines, isBlankLine l = false) →
      streamBlocks parse startBlock lines =
        lines.enum.filterMap
          (fun p => (parse p.2).map fun v => (startBlock + (p.1 : Int), v)) := by
  intro α parse startBlock lines h
  have hx := streamBlocksAux_eq parse startBlock lines 0 h
  simpa [streamBlocks, List.enum] using hx

/-- Witness for C8 on a concrete four-line file starting at 830000000,
whose third line fails to parse: the yielded block numbers are the range
start plus each line index. -/
theorem C8_stream_blocks_numbering_witness :
    (∀ l ∈ ["a", "b", "bad", "c"], isBlankLine l = false) ∧
    streamBlocks parseW 830000000 ["a", "b", "bad", "c"] =
      [(830000000, "a"), (830000001, "b"), (830000003, "c")] := by
  have h := C8_stream_blocks_numbering parseW 830000000 ["a", "b", "bad", "c"] (by decide)
  exact ⟨by decide, h.trans (by decide)⟩

/-- Every result of the Go `ParseBlockRange` comes from a well-formed key
and records that key. -/
theorem goParseBlockRange_sound {key : String} {br : BlockRange}
    (h : goParseBlockRange key = some br) :
    br.s3Key = key ∧ wellFormedKey key = true := by
  unfold goParseBlockRange at h
  split at h
  next p0 p1 p2 p3 heq =>
    by_cases hp0 : p0 = "replica_cmds"
    · rw [if_pos hp0] at h
      split at h
      next a b heq2 =>
        cases ha : goParseIntDec a with
        | none => rw [ha] at h; exact Option.noConfusion h
        | some sv =>
          cases hb : goParseIntDec b with
          | none => rw [ha, hb] at h; exact Option.noConfusion h
          | some ev =>
            rw [ha, hb] at h
            rcases Option.some.inj h with rfl
            refine ⟨rfl, ?_⟩
            unfold wellFormedKey
            rw [heq]
            subst hp0
            simp [wellFormedRangeSeg, heq2, ha, hb]
      next => exact Option.noConfusion h
    · rw [if_neg hp0] at h; exact Option.noConfusion h
  next => exact Option.noConfusion h

/-- Every result of the JavaScript `parseBlockRange` records its key, and
that key has exactly four slash segments starting with `replica_cmds`. -/
theorem jsParseBlockRange_sound {key : String} {br : JsBlockRange}
    (h : jsParseBlockRange key = some br) :
    br.s3Key = key ∧
    ∃ seg, splitOnChar '/' key = ["replica_cmds", br.checkpoint, br.date, seg] := by
  unfold jsParseBlockRange at h
  split at h
  next p0 p1 p2 p3 heq =>
    by_cases hp0 : p0 = "replica_cmds"
    · rw [if_pos hp0] at h
      split at h
      next a b heq0 heq1 =>
        split at h
        · rcases Option.some.inj h with rfl
          exact ⟨rfl, p3, by rw [heq, hp0]⟩
        · exact Option.noConfusion h
      next => exact Option.noConfusion h
    · rw [if_neg hp0] at h; exact Option.noConfusion h
  next => exact Option.noConfusion h

/-- The last element of a list is a member of it. -/
theorem getLast?_mem {α : Type} : ∀ (l : List α) (a : α), l.getLast? = some a → a ∈ l := by
  intro l
  induction l with
  | nil => intro a h; simp at h
  | cons x l2 ih =>
    intro a h
    cases l2 with
    | nil =>
      rw [List.getLast?_singleton] at h
      simp [Option.some.inj h]
    | cons y l3 =>
      rw [List.getLast?_cons_cons] at h
      exact List.mem_cons_of_mem x (ih a h)

/-- In a pairwise-ordered list, every element is the last element or
relates to it. -/
theorem pairwise_getLast?_max {α : Type} {r : α → α → Prop} :
    ∀ (l : List α), List.Pairwise r l → ∀ cp, l.getLast? = some cp →
      ∀ c ∈ l, c = cp ∨ r c cp := by
  intro l
  induction l with
  | nil => intro _ cp h; simp at h
  | cons a l2 ih =>
    intro hs cp hlast c hc
    rw [List.pairwise_cons] at hs
    cases l2 with
    | nil =>
      rw [List.getLast?_singleton] at hlast
      rcases List.mem_singleton.mp hc with rfl
      exact Or.inl (Option.some.inj hlast)
    | cons b l3 =>
      rw [List.getLast?_cons_cons] at hlast
      rcases List.mem_cons.mp hc with rfl | hc2
      · exact Or.inr (hs.1 cp (getLast?_mem _ cp hlast))
      · exact ih hs.2 cp hlast c hc2

/-- A result of the Go per-checkpoint scan is parsed from a key under that
checkpoint and brackets the target. -/
theorem goSearchCheckpoint_sound {datesOf : String → List String}
    {filesOf : String → String → List String} {cp : String} {t : Int} {br : BlockRange}
    (h : goSearchCheckpoint datesOf filesOf cp t = some br) :
    wellFormedKey br.s3Key = true ∧ br.startBlock ≤ t ∧ t ≤ br.endBlock ∧
    ∃ d ∈ datesOf cp, ∃ f ∈ filesOf cp d, br.s3Key = mkKey cp d f := by
  unfold goSearchCheckpoint at h
  obtain ⟨d, hd, h2⟩ := List.exists_of_findSome?_eq_some h
  obtain ⟨f, hf, h3⟩ := List.exists_of_findSome?_eq_some h2
  cases hp : goParseBlockRange (mkKey cp d f) with
  | none => rw [hp] at h3; exact Option.noConfusion h3
  | some br2 =>
    rw [hp] at h3
    change (if br2.startBlock ≤ t ∧ t ≤ br2.endBlock then some br2 else none) =
      some br at h3
    split at h3
    next hrange =>
      rcases Option.some.inj h3 with rfl
      have hsound := goParseBlockRange_sound hp
      exact ⟨hsound.1 ▸ hsound.2, hrange.1, hrange.2, d, hd, f, hf, hsound.1⟩
    next => exact Option.noConfusion h3

/-- A result of the JavaScript per-checkpoint scan is parsed from a
four-segment `replica_cmds` key under that checkpoint and has numeric
bounds bracketing the target. -/
theorem jsSearchCheckpoint_sound {datesOf : String → List String}
    {filesOf : String → String → List String} {cp : String} {t : Int} {br : JsBlockRange}
    (h : jsSearchCheckpoint datesOf filesOf cp t = some br) :
    (∃ s e, br.startNum = some s ∧ br.endNum = some e ∧ s ≤ t ∧ t ≤ e) ∧
    (∃ seg, splitOnChar '/' br.s3Key = ["replica_cmds", br.checkpoint, br.date, seg]) ∧
    ∃ d ∈ datesOf cp, ∃ f ∈ filesOf cp d, br.s3Key = mkKey cp d f := by
  unfold jsSearchCheckpoint at h
  obtain ⟨d, hd, h2⟩ := List.exists_of_findSome?_eq_some h
  obtain ⟨f, hf, h3⟩ := List.exists_of_findSome?_eq_some h2
  cases hp : jsParseBlockRange (mkKey cp d f) with
  | none => rw [hp] at h3; exact Option.noConfusion h3
  | some br2 =>
    rw [hp] at h3
    change (match br2.startNum, br2.endNum with
      | some s, some e => if s ≤ t ∧ t ≤ e then some br2 else none
      | _, _ => none) = some br at h3
    cases hsv : br2.startNum with
    | none =>
      rw [hsv] at h3
      exact Option.noConfusion h3
    | some sv =>
      rw [hsv] at h3
      cases hev : br2.endNum with
      | none =>
        rw [hev] at h3
        exact Option.noConfusion h3
      | some ev =>
        rw [hev] at h3
        change (if sv ≤ t ∧ t ≤ ev then some br2 else none) = some br at h3
        split at h3
        next hrange =>
          rcases Option.some.inj h3 with rfl
          have hsound := jsParseBlockRange_sound hp
          exact ⟨⟨sv, ev, hsv, hev, hrange.1, hrange.2⟩,
            hsound.1 ▸ hsound.2, d, hd, f, hf, hsound.1⟩
        next => exact Option.noConfusion h3

/-- Nested `findSome?` searches agree when the inner listing functions
agree pointwise. -/
theorem findSome?_congr_inner {α β γ : Type} (l : List α) (g g2 : α → List β)
    (k : α → β → Option γ) (h : ∀ a, g a = g2 a) :
    (l.findSome? fun a => (g a).findSome? (k a)) =
    (l.findSome? fun a => (g2 a).findSome? (k a)) := by
  have hfun : (fun a => (g a).findSome? (k a)) = (fun a => (g2 a).findSome? (k a)) :=
    funext fun a => by rw [h a]
  rw [hfun]

/-- C9 counterexample: with the listing containing the single file name
`5-9-extra` under checkpoint `1704067200`, the JavaScript `findBlockFile`
returns a `BlockRange` for target 7 although the key
`replica_cmds/1704067200/20240101/5-9-extra` is not a well-formed
`replica_cmds/{checkpoint}/{date}/{start}-{end}` key (its final segment
has three dash components; JavaScript destructuring keeps the first two);
the Go port rejects the same key.  This falsifies the claim that every
non-null result was parsed from a well-formed key. -/
theorem C9_js_lax_key_counterexample :
    jsFindBlockFile cps9 dates9 files9 7 =
      some ⟨"1704067200", "20240101", some 5, some 9,
        "replica_cmds/1704067200/20240101/5-9-extra"⟩ ∧
    wellFormedKey "replica_cmds/1704067200/20240101/5-9-extra" = false ∧
    goFindBlockFile cps9 dates9 files9 7 = none := by
  refine ⟨by decide, by decide, by decide⟩

/-- C9 amended: a non-null Go result is parsed from a well-formed
four-segment key `replica_cmds/{checkpoint}/{date}/{start}-{end}` under
the last checkpoint of the listing (the maximum, when the listing is
sorted) and brackets the target; a non-null JavaScript result likewise
comes from a four-segment `replica_cmds` key under the last checkpoint and
brackets the target, but its final segment need only begin with two
dash-separated components accepted by `parseInt`; and both searches
consult only the last checkpoint, so the result is unchanged whatever the
listings under earlier checkpoints hold — a target stored only under an
earlier checkpoint yields null. -/
theorem C9_amended_find_block_file :
    (∀ cps datesOf filesOf t br,
      goFindBlockFile cps datesOf filesOf t = some br →
      wellFormedKey br.s3Key = true ∧ br.startBlock ≤ t ∧ t ≤ br.endBlock ∧
      ∃ cp, cps.getLast? = some cp ∧
        (List.Pairwise (fun a b => strLe a b = true) cps →
          ∀ c ∈ cps, c = cp ∨ strLe c cp = true) ∧
        ∃ d ∈ datesOf cp, ∃ f ∈ filesOf cp d, br.s3Key = mkKey cp d f) ∧
    (∀ cps datesOf filesOf t br,
      jsFindBlockFile cps datesOf filesOf t = some br →
      (∃ s e, br.startNum = some s ∧ br.endNum = some e ∧ s ≤ t ∧ t ≤ e) ∧
      (∃ seg, splitOnChar '/' br.s3Key = ["replica_cmds", br.checkpoint, br.date, seg]) ∧
      ∃ cp, cps.getLast? = some cp ∧
        ∃ d ∈ datesOf cp, ∃ f ∈ filesOf cp d, br.s3Key = mkKey cp d f) ∧
    (∀ cps datesOf filesOf datesOf2 filesOf2 t,
      (∀ cp, cps.getLast? = some cp →
        datesOf cp = datesOf2 cp ∧ ∀ d, filesOf cp d = filesOf2 cp d) →
      goFindBlockFile cps datesOf filesOf t = goFindBlockFile cps datesOf2 filesOf2 t ∧
      jsFindBlockFile cps datesOf filesOf t = jsFindBlockFile cps datesOf2 filesOf2 t) := by
  refine ⟨?_, ?_, ?_⟩
  · intro cps datesOf filesOf t br h
    unfold goFindBlockFile at h
    cases hlast : cps.getLast? with
    | none => rw [hlast] at h; exact Option.noConfusion h
    | some cp =>
      rw [hlast] at h
      replace h : goSearchCheckpoint datesOf filesOf cp t = some br := h
      obtain ⟨hwf, hlo, hhi, d, hd, f, hf, hkey⟩ := goSearchCheckpoint_sound h
      exact ⟨hwf, hlo, hhi, cp, rfl,
        fun hsorted c hc => pairwise_getLast?_max cps hsorted cp hlast c hc,
        d, hd, f, hf, hkey⟩
  · intro cps datesOf filesOf t br h
    unfold jsFindBlockFile at h
    cases hlast : cps.getLast? with
    | none => rw [hlast] at h; exact Option.noConfusion h
    | some cp =>
      rw [hlast] at h
      replace h : jsSearchCheckpoint datesOf filesOf cp t = some br := h
      obtain ⟨hbounds, hseg, d, hd, f, hf, hkey⟩ := jsSearchCheckpoint_sound h
      exact ⟨hbounds, hseg, cp, rfl, d, hd, f, hf, hkey⟩
  · intro cps datesOf filesOf datesOf2 filesOf2 t hagree
    unfold goFindBlockFile jsFindBlockFile
    cases hlast : cps.getLast? with
    | none => exact ⟨rfl, rfl⟩
    | some cp =>
      have hd := (hagree cp hlast).1
      have hf := (hagree cp hlast).2
      constructor
      · show goSearchCheckpoint datesOf filesOf cp t =
          goSearchCheckpoint datesOf2 filesOf2 cp t
        unfold goSearchCheckpoint
        rw [hd]
        exact findSome?_congr_inner (datesOf2 cp) (filesOf cp) (filesOf2 cp) _ hf
      · show jsSearchCheckpoint datesOf filesOf cp t =
          jsSearchCheckpoint datesOf2 filesOf2 cp t
        unfold jsSearchCheckpoint
        rw [hd]
        exact findSome?_congr_inner (datesOf2 cp) (filesOf cp) (filesOf2 cp) _ hf

/-- Witness for C9 amended at a concrete two-checkpoint listing: the Go
search over checkpoints `100` and `200` (sorted) with file `5-9` under the
last checkpoint finds the range for target 7; its key is well-formed, the
bounds bracket 7, and the earlier checkpoint `100` is below the searched
checkpoint `200`. -/
theorem C9_amended_find_block_file_witness :
    wellFormedKey "replica_cmds/200/d/5-9" = true ∧
    ((5 : Int) ≤ 7 ∧ (7 : Int) ≤ 9) ∧
    (("100" : String) = "200" ∨ strLe "100" "200" = true) := by
  have h := C9_amended_find_block_file.1 ["100", "200"] (fun _ => ["d"])
    (fun _ _ => ["5-9"]) 7 ⟨"200", "d", 5, 9, "replica_cmds/200/d/5-9"⟩ (by decide)
  obtain ⟨hwf, hlo, hhi, cp, hcp, hmax, -⟩ := h
  have hcp2 : cp = "200" := Option.some.inj (hcp.symm.trans (by decide))
  have hm := hmax (by decide) "100" (by decide)
  rw [hcp2] at hm
  exact ⟨hwf, ⟨hlo, hhi⟩, hm⟩

end HLGrpc
